import Mathlib

/-!
Verification development for the StockLens ledger and valuation engine.

The definitions below are a shallow embedding of the TypeScript sources:

* `executeTrade`                — src/lib/services/trade.service.ts
* `getUserPortfolioCore`        — src/lib/services/portfolio.service.ts (getUserPortfolio)
* `getEquityTimeSeries`         — portfolio analytics module (getEquityTimeSeries)
* `calculateDailyReturns`, `calculateVolatility`, `calculateSharpe`,
  `buildPortfolioSnapshot`      — portfolio analytics module

Modelling conventions:
* JS numbers (binary floats in the source) are modelled as exact rationals `ℚ`;
  quantities, prices and balances are all `ℚ`.  Volatility and the Sharpe
  ratio require square roots and real exponents, so they live in `ℝ`.
* Timestamps (`createdAt`, equity-point dates) are modelled as rationals
  measured in days; the source's truncation of an ISO string to its
  "YYYY-MM-DD" prefix is modelled as `Int.floor` of the timestamp.
* JS `Map` objects are modelled as association lists that preserve insertion
  order; `set` updates in place (appending on a fresh key), `delete` removes
  the key, matching the iteration-order semantics of `Map`.
* The MongoDB session (startTransaction / commitTransaction / abortTransaction)
  is modelled by `executeTrade` returning either a wholly new ledger state
  (commit) or an error with the old state retained (abort).
* `Array.prototype.sort` is modelled with `List.insertionSort` (a stable
  comparison sort; tie order is not relied on by any theorem).
* `Number(x.toFixed(k))` is modelled as `round (x * 10^k) / 10^k` (ties away
  from the smaller value, exactly ECMA's "pick the larger n" tie rule).
-/

namespace StockLens

/-- A committed transaction row (src/database/models/transaction.model.ts).
`type` is kept as a raw string because the equity-curve builder defends
against values outside {BUY, SELL}; `createdAt` is optional because the
builder defends against a missing timestamp. -/
structure Txn where
  symbol : String
  type : String
  quantity : ℚ
  price : ℚ
  totalAmount : ℚ
  createdAt : Option ℚ
  deriving DecidableEq

/-- The per-user mutable account state together with the append-only
transaction log (the user row plus the transaction collection). -/
structure LedgerState where
  balance : ℚ
  txns : List Txn
  deriving DecidableEq

/-- The error taxonomy of `executeTrade` (the thrown `Error` messages in
src/lib/services/trade.service.ts):
`invalidInput` = "Invalid trade parameters", `priceUnavailable` = "Unable to
fetch current stock price", `insufficientBalance` = "Insufficient balance",
`insufficientHoldings` = "Insufficient holdings",
`invalidType` = "Invalid transaction type". -/
inductive TradeError where
  | invalidInput
  | priceUnavailable
  | insufficientBalance
  | insufficientHoldings
  | invalidType
  deriving DecidableEq

/-- The success payload returned by `executeTrade`. -/
structure TradeData where
  symbol : String
  ttype : String
  quantity : ℚ
  price : ℚ
  totalAmount : ℚ
  newBalance : ℚ
  deriving DecidableEq

/-- Result of one `executeTrade` call: either a committed new ledger state
plus the returned fields, or an aborted transaction with an error. -/
inductive TradeOutcome where
  | ok (st : LedgerState) (data : TradeData)
  | error (e : TradeError)
  deriving DecidableEq

/-- One trade request: caller-supplied arguments plus the two bits of
environment the call consumes (the price-oracle response for the symbol and
the commit timestamp the store will assign). -/
structure TradeReq where
  userId : String
  symbol : String
  ttype : String
  quantity : ℚ
  priceResult : Option ℚ
  now : ℚ
  deriving DecidableEq

/-- ASCII model of JS `String.prototype.trim` on a character list. -/
def trimChars (l : List Char) : List Char :=
  (((l.dropWhile Char.isWhitespace).reverse).dropWhile Char.isWhitespace).reverse

/-- Model of `symbol.toUpperCase().trim()` from trade.service.ts line 38. -/
def normSymbol (s : String) : String :=
  String.mk (trimChars (s.data.map Char.toUpper))

/-- Signed cash effect of one committed transaction on the account balance:
a BUY debited `totalAmount`, a SELL credited it. -/
def cashEffect (t : Txn) : ℚ :=
  if t.type = ("BUY") then -t.totalAmount
  else if t.type = ("SELL") then t.totalAmount
  else 0

/-- Net signed cash effect of a transaction log. -/
def netCashEffect (txns : List Txn) : ℚ :=
  (txns.map cashEffect).sum

/-- Signed quantity effect of one transaction on the holdings of `sym`
(trade.service.ts lines 78-86: BUY adds, SELL subtracts, symbol must match). -/
def qtyEffect (sym : String) (t : Txn) : ℚ :=
  if t.symbol = sym then
    if t.type = ("BUY") then t.quantity
    else if t.type = ("SELL") then -t.quantity
    else 0
  else 0

/-- Net quantity of `sym` held according to a transaction log, as computed by
the SELL branch of `executeTrade` (trade.service.ts lines 72-86). -/
def netQuantity (txns : List Txn) (sym : String) : ℚ :=
  (txns.map (qtyEffect sym)).sum

/-- Shallow embedding of `executeTrade` (trade.service.ts lines 23-146).
The mongoose session makes the whole body atomic: on any thrown error the
transaction is aborted and no state changes; on commit the balance mutation
and the transaction append happen together.  The price-oracle call is
modelled by `r.priceResult` (`none` = fetch failure; the code also rejects a
zero price because `!currentPrice` is truthy-based). -/
def executeTrade (st : LedgerState) (r : TradeReq) : TradeOutcome :=
  let upperSymbol := normSymbol r.symbol
  if r.userId = ("") ∨ upperSymbol = ("") ∨ r.quantity < 1 then .error .invalidInput
  else
    match r.priceResult with
    | none => .error .priceUnavailable
    | some price =>
      if price = 0 then .error .priceUnavailable
      else
        let totalAmount := price * r.quantity
        if r.ttype = ("BUY") then
          if st.balance < totalAmount then .error .insufficientBalance
          else
            let newTxn : Txn :=
              { symbol := upperSymbol, type := r.ttype, quantity := r.quantity,
                price := price, totalAmount := totalAmount, createdAt := some r.now }
            let st' : LedgerState := ⟨st.balance - totalAmount, st.txns ++ [newTxn]⟩
            .ok st' ⟨upperSymbol, r.ttype, r.quantity, price, totalAmount, st'.balance⟩
        else if r.ttype = ("SELL") then
          if netQuantity st.txns upperSymbol < r.quantity then .error .insufficientHoldings
          else
            let newTxn : Txn :=
              { symbol := upperSymbol, type := r.ttype, quantity := r.quantity,
                price := price, totalAmount := totalAmount, createdAt := some r.now }
            let st' : LedgerState := ⟨st.balance + totalAmount, st.txns ++ [newTxn]⟩
            .ok st' ⟨upperSymbol, r.ttype, r.quantity, price, totalAmount, st'.balance⟩
        else .error .invalidType

/-- The ledger state after one `executeTrade` call: the committed state on
success, the untouched state after an abort. -/
def stepTrade (st : LedgerState) (r : TradeReq) : LedgerState :=
  match executeTrade st r with
  | .ok st' _ => st'
  | .error _ => st

/-- Ledger state after a sequence of `executeTrade` calls. -/
def runTrades (st : LedgerState) (rs : List TradeReq) : LedgerState :=
  rs.foldl stepTrade st

theorem netCashEffect_append (xs : List Txn) (t : Txn) :
    netCashEffect (xs ++ [t]) = netCashEffect xs + cashEffect t := by
  simp [netCashEffect]

theorem normSymbol_AAPL : normSymbol ("AAPL") = ("AAPL") := by decide

/-- Helper: the failing BUY branch of `executeTrade`. -/
theorem executeTrade_buy_fail (st : LedgerState) (r : TradeReq) (p : ℚ)
    (hty : r.ttype = ("BUY"))
    (hprice : r.priceResult = some p) (hp : p ≠ 0)
    (huser : r.userId ≠ (""))
    (hsym : normSymbol r.symbol ≠ (""))
    (hqty : ¬ r.quantity < 1)
    (hbal : st.balance < p * r.quantity) :
    executeTrade st r = .error .insufficientBalance := by
  unfold executeTrade
  simp [huser, hsym, hqty, hprice, hp, hty, hbal]

/-- The ledger-consistency invariant is preserved by any single trade call. -/
theorem stepTrade_preserves (sb : ℚ) (st : LedgerState) (r : TradeReq)
    (h : st.balance = sb + netCashEffect st.txns) :
    (stepTrade st r).balance = sb + netCashEffect (stepTrade st r).txns := by
  unfold stepTrade executeTrade
  split
  case h_1 st' d heq =>
    -- success: peel the definition to find the committed state
    simp only at heq
    split at heq
    · exact absurd heq (by simp)
    · split at heq
      · exact absurd heq (by simp)
      · split at heq
        · exact absurd heq (by simp)
        · split at heq
          · split at heq
            · exact absurd heq (by simp)
            · -- BUY commit
              rename_i hbuy _
              injection heq with h1 h2
              subst h1
              simp [netCashEffect_append, cashEffect, hbuy, h]
              ring
          · split at heq
            · split at heq
              · exact absurd heq (by simp)
              · -- SELL commit
                rename_i hnotbuy hsell _
                injection heq with h1 h2
                subst h1
                simp [netCashEffect_append, cashEffect, hnotbuy, hsell, h]
                ring
            · exact absurd heq (by simp)
  case h_2 => exact h

theorem runTrades_invariant (sb : ℚ) (rs : List TradeReq) (st : LedgerState)
    (h : st.balance = sb + netCashEffect st.txns) :
    (runTrades st rs).balance = sb + netCashEffect (runTrades st rs).txns := by
  induction rs generalizing st with
  | nil => exact h
  | cons r rs ih =>
    simpa [runTrades, List.foldl_cons] using ih (stepTrade st r) (stepTrade_preserves sb st r h)

/-- C1: Ledger consistency.  Starting from an account whose cash balance
equals its starting balance with an empty log, after any sequence of
`executeTrade` calls the balance equals the starting balance plus the sum of
the signed cash effects (+totalAmount for SELL, -totalAmount for BUY) of all
committed transactions; and any call that fails leaves the ledger state (cash
balance and transaction log) unchanged.  This covers every intermediate point
in time, since every prefix of a request sequence is itself a request
sequence. -/
theorem executeTrade_ledger_consistency :
    (∀ (sb : ℚ) (rs : List TradeReq),
      (runTrades ⟨sb, []⟩ rs).balance = sb + netCashEffect (runTrades ⟨sb, []⟩ rs).txns) ∧
    (∀ (st : LedgerState) (r : TradeReq) (e : TradeError),
      executeTrade st r = .error e → stepTrade st r = st) := by
  constructor
  · intro sb rs
    exact runTrades_invariant sb rs ⟨sb, []⟩ (by simp [netCashEffect])
  · intro st r e herr
    simp [stepTrade, herr]

/-- C1 witness: a concrete run (a successful BUY, a failed BUY, a successful
SELL) whose final balance matches the signed transaction sum, and a concrete
failed trade that leaves the state unchanged. -/
theorem executeTrade_ledger_consistency_witness :
    (runTrades ⟨1000, []⟩
      [⟨("u"), ("AAPL"), ("BUY"), 2, some 100, 0⟩,
       ⟨("u"), ("AAPL"), ("BUY"), 9, some 100, 1⟩,
       ⟨("u"), ("AAPL"), ("SELL"), 1, some 150, 2⟩]).balance =
      1000 + netCashEffect (runTrades ⟨1000, []⟩
      [⟨("u"), ("AAPL"), ("BUY"), 2, some 100, 0⟩,
       ⟨("u"), ("AAPL"), ("BUY"), 9, some 100, 1⟩,
       ⟨("u"), ("AAPL"), ("SELL"), 1, some 150, 2⟩]).txns ∧
    stepTrade ⟨0, []⟩ ⟨("u"), ("AAPL"), ("BUY"), 1, some 10, 0⟩ = ⟨0, []⟩ := by
  refine ⟨executeTrade_ledger_consistency.1 1000 _, ?_⟩
  refine executeTrade_ledger_consistency.2 ⟨0, []⟩ _ .insufficientBalance ?_
  refine executeTrade_buy_fail _ _ 10 rfl rfl (by norm_num) (by decide) ?_
    (show ¬ (1 : ℚ) < 1 by norm_num) (show (0 : ℚ) < 10 * 1 by norm_num)
  rw [show (⟨("u"), ("AAPL"), ("BUY"), 1, some 10, 0⟩ : TradeReq).symbol = ("AAPL") from rfl,
    normSymbol_AAPL]
  decide

/-- C2: No overdraft.  A BUY whose total cost strictly exceeds the available
cash balance fails with `insufficientBalance`, and the failed call leaves the
cash balance and the transaction log unchanged. -/
theorem executeTrade_no_overdraft (st : LedgerState) (r : TradeReq) (p : ℚ)
    (hty : r.ttype = ("BUY"))
    (hprice : r.priceResult = some p) (hp : p ≠ 0)
    (huser : r.userId ≠ (""))
    (hsym : normSymbol r.symbol ≠ (""))
    (hqty : ¬ r.quantity < 1)
    (hbal : st.balance < p * r.quantity) :
    executeTrade st r = .error .insufficientBalance ∧ stepTrade st r = st := by
  have h := executeTrade_buy_fail st r p hty hprice hp huser hsym hqty hbal
  exact ⟨h, by simp [stepTrade, h]⟩

/-- C2 witness: an account with a balance of 100 rejects a BUY of 2 shares at
price 51 (cost 102) with `insufficientBalance` and is left unchanged. -/
theorem executeTrade_no_overdraft_witness :
    executeTrade ⟨100, []⟩ ⟨("u"), ("AAPL"), ("BUY"), 2, some 51, 0⟩ =
      .error .insufficientBalance ∧
    stepTrade ⟨100, []⟩ ⟨("u"), ("AAPL"), ("BUY"), 2, some 51, 0⟩ = ⟨100, []⟩ :=
  executeTrade_no_overdraft ⟨100, []⟩ ⟨("u"), ("AAPL"), ("BUY"), 2, some 51, 0⟩ 51
    rfl rfl (by norm_num) (by decide) (by decide)
    (show ¬ (2 : ℚ) < 1 by norm_num) (show (100 : ℚ) < 51 * 2 by norm_num)

/-- C3: No oversell.  For a SELL request, `executeTrade` replays the user's
prior committed transactions for the (normalized) symbol into a signed net
quantity (BUY positive, SELL negative).  If that net quantity is strictly
below the requested quantity the call fails with `insufficientHoldings` and
the ledger state is unchanged; otherwise (including the exact-equality case)
the call commits: the balance is credited with `price * quantity` and exactly
the new SELL transaction is appended. -/
theorem executeTrade_no_oversell (st : LedgerState) (r : TradeReq) (p : ℚ)
    (hty : r.ttype = ("SELL"))
    (hprice : r.priceResult = some p) (hp : p ≠ 0)
    (huser : r.userId ≠ (""))
    (hsym : normSymbol r.symbol ≠ (""))
    (hqty : ¬ r.quantity < 1) :
    (netQuantity st.txns (normSymbol r.symbol) < r.quantity →
      executeTrade st r = .error .insufficientHoldings ∧ stepTrade st r = st) ∧
    (r.quantity ≤ netQuantity st.txns (normSymbol r.symbol) →
      (stepTrade st r).balance = st.balance + p * r.quantity ∧
      (stepTrade st r).txns = st.txns ++
        [{ symbol := normSymbol r.symbol, type := r.ttype, quantity := r.quantity,
           price := p, totalAmount := p * r.quantity, createdAt := some r.now }]) := by
  have hnotbuy : ¬ r.ttype = ("BUY") := by simp [hty]
  constructor
  · intro hlow
    have h : executeTrade st r = .error .insufficientHoldings := by
      unfold executeTrade
      simp [huser, hsym, hqty, hprice, hp, hnotbuy, hty, hlow]
    exact ⟨h, by simp [stepTrade, h]⟩
  · intro hok
    have hnotlow : ¬ netQuantity st.txns (normSymbol r.symbol) < r.quantity := not_lt.mpr hok
    have h : executeTrade st r =
        .ok ⟨st.balance + p * r.quantity, st.txns ++
          [{ symbol := normSymbol r.symbol, type := r.ttype, quantity := r.quantity,
             price := p, totalAmount := p * r.quantity, createdAt := some r.now }]⟩
          ⟨normSymbol r.symbol, r.ttype, r.quantity, p, p * r.quantity,
            st.balance + p * r.quantity⟩ := by
      unfold executeTrade
      simp [huser, hsym, hqty, hprice, hp, hnotbuy, hty, hnotlow]
    simp [stepTrade, h]

/-- C3 witness: with a log holding a net of exactly 2 AAPL shares, selling 3
fails with `insufficientHoldings` leaving the state unchanged, while selling
exactly 2 (net quantity equal to the requested quantity) commits, credits the
proceeds and appends the SELL transaction. -/
theorem executeTrade_no_oversell_witness :
    (executeTrade
        ⟨800, [{ symbol := ("AAPL"), type := ("BUY"), quantity := 2, price := 100,
                 totalAmount := 200, createdAt := some 0 }]⟩
        ⟨("u"), ("AAPL"), ("SELL"), 3, some 110, 1⟩ =
      .error .insufficientHoldings) ∧
    ((stepTrade
        ⟨800, [{ symbol := ("AAPL"), type := ("BUY"), quantity := 2, price := 100,
                 totalAmount := 200, createdAt := some 0 }]⟩
        ⟨("u"), ("AAPL"), ("SELL"), 2, some 110, 1⟩).balance = 800 + 110 * 2) := by
  have hnet : netQuantity
      [{ symbol := ("AAPL"), type := ("BUY"), quantity := (2 : ℚ), price := 100,
         totalAmount := 200, createdAt := some 0 }] (normSymbol ("AAPL")) = 2 := by
    rw [normSymbol_AAPL]
    norm_num [netQuantity, qtyEffect]
  constructor
  · refine ((executeTrade_no_oversell _ _ 110 rfl rfl (by norm_num) (by decide) (by decide)
      (show ¬ (3 : ℚ) < 1 by norm_num)).1 ?_).1
    show netQuantity _ (normSymbol ("AAPL")) < (3 : ℚ)
    rw [hnet]; norm_num
  · refine ((executeTrade_no_oversell _ _ 110 rfl rfl (by norm_num) (by decide) (by decide)
      (show ¬ (2 : ℚ) < 1 by norm_num)).2 ?_).1
    show (2 : ℚ) ≤ netQuantity _ (normSymbol ("AAPL"))
    rw [hnet]

/-! ## Association-list model of JS `Map` -/

/-- `Map.get`, returning `none` on a missing key. -/
def getA {κ α : Type} [DecidableEq κ] : List (κ × α) → κ → Option α
  | [], _ => none
  | e :: rest, k => if e.1 = k then some e.2 else getA rest k

/-- `Map.set`: update in place, append at the end on a fresh key (JS `Map`
preserves first-insertion order). -/
def setA {κ α : Type} [DecidableEq κ] : List (κ × α) → κ → α → List (κ × α)
  | [], k, v => [(k, v)]
  | e :: rest, k, v => if e.1 = k then (k, v) :: rest else e :: setA rest k v

/-- `Map.delete` (keys are unique in maps built by `setA`, so removing every
occurrence coincides with deleting the key). -/
def delA {κ α : Type} [DecidableEq κ] (m : List (κ × α)) (k : κ) : List (κ × α) :=
  m.filter (fun e => e.1 ≠ k)

theorem getA_delA {κ α : Type} [DecidableEq κ] (m : List (κ × α)) (k : κ) :
    getA (delA m k) k = none := by
  induction m with
  | nil => rfl
  | cons e rest ih =>
    by_cases h : e.1 = k
    · simpa [delA, h] using ih
    · simpa [delA, getA, h] using ih

/-! ## Equity Curve Builder (getEquityTimeSeries) -/

/-- One point of the equity curve: the commit timestamp of a transaction and
the replayed equity (cash plus holdings marked at last known prices). -/
structure EquityPoint where
  date : ℚ
  equity : ℚ
  deriving DecidableEq

/-- Validity test applied to each transaction by `getEquityTimeSeries`:
a timestamp must be present, `totalAmount` must be positive and the type must
be BUY or SELL; anything else is a defensive no-op. -/
def isValidTxn (t : Txn) : Bool :=
  t.createdAt.isSome && decide (0 < t.totalAmount) &&
    (t.type == ("BUY") || t.type == ("SELL"))

/-- Mark-to-last-known-price value of the holdings map. -/
def holdingsValueOf (holdings lastPrice : List (String × ℚ)) : ℚ :=
  (holdings.map (fun e => e.2 * ((getA lastPrice e.1).getD 0))).sum

/-- Replay state of the equity-curve builder. -/
structure EqState where
  cash : ℚ
  holdings : List (String × ℚ)
  lastPrice : List (String × ℚ)
  deriving DecidableEq

/-- One iteration of the `getEquityTimeSeries` loop: a malformed transaction
is skipped (no state change, no point); a valid one mutates cash and
holdings, records the last price, and emits exactly one point stamped with
the transaction's `createdAt`. -/
def stepTxn (s : EqState) (t : Txn) : EqState × Option EquityPoint :=
  if isValidTxn t then
    let cash' := if t.type = ("BUY") then s.cash - t.totalAmount else s.cash + t.totalAmount
    let holdings' :=
      if t.type = ("BUY") then
        setA s.holdings t.symbol (((getA s.holdings t.symbol).getD 0) + t.quantity)
      else
        let newQty := ((getA s.holdings t.symbol).getD 0) - t.quantity
        if newQty ≤ 0 then delA s.holdings t.symbol else setA s.holdings t.symbol newQty
    let lastPrice' := setA s.lastPrice t.symbol t.price
    (⟨cash', holdings', lastPrice'⟩,
      some ⟨t.createdAt.getD 0, cash' + holdingsValueOf holdings' lastPrice'⟩)
  else (s, none)

/-- The point list produced by folding `stepTxn` over the log. -/
def buildPoints (s : EqState) : List Txn → List EquityPoint
  | [] => []
  | t :: rest =>
    match stepTxn s t with
    | (s', none) => buildPoints s' rest
    | (s', some p) => p :: buildPoints s' rest

/-- Shallow embedding of `getEquityTimeSeries`: with an empty log it returns
the single synthetic point `{date := now, equity := startingBalance}`,
otherwise the replayed per-transaction points. -/
def getEquityTimeSeries (now startingBalance : ℚ) (txns : List Txn) : List EquityPoint :=
  match txns with
  | [] => [⟨now, startingBalance⟩]
  | _ => buildPoints ⟨startingBalance, [], []⟩ txns

theorem stepTxn_invalid (s : EqState) (t : Txn) (h : ¬ isValidTxn t) :
    stepTxn s t = (s, none) := by
  simp [stepTxn, h]

theorem buildPoints_dates (s : EqState) (ts : List Txn) :
    (buildPoints s ts).map (fun p => p.date) =
      (ts.filter (fun t => isValidTxn t)).map (fun t => t.createdAt.getD 0) := by
  induction ts generalizing s with
  | nil => rfl
  | cons t rest ih =>
    by_cases h : isValidTxn t
    · simp only [buildPoints, stepTxn, h, if_true, List.filter_cons_of_pos h]
      simp [ih]
    · simp only [buildPoints, stepTxn, h, if_false, List.filter_cons_of_neg h]
      exact ih _

theorem buildPoints_all_invalid (s : EqState) (ts : List Txn)
    (h : ∀ t ∈ ts, ¬ isValidTxn t) : buildPoints s ts = [] := by
  induction ts generalizing s with
  | nil => rfl
  | cons t rest ih =>
    have ht := stepTxn_invalid s t (h t (by simp))
    simp only [buildPoints, ht]
    exact ih s (fun t' ht' => h t' (by simp [ht']))

/-- C4: Equity-curve point emission.  For a non-empty ordered transaction
log: (a) the curve carries exactly one point per valid transaction, in input
order, stamped with that transaction's `createdAt`; (b) a malformed
transaction (missing timestamp, non-positive totalAmount, or type outside
{BUY, SELL}) is skipped entirely — it neither mutates the replay state nor
emits a point; (c) hence with N valid and 0 malformed transactions, sorted by
`createdAt`, the curve has exactly N points with monotonically non-decreasing
timestamps. -/
theorem getEquityTimeSeries_point_emission (now sb : ℚ) (ts : List Txn)
    (hne : ts ≠ []) :
    ((getEquityTimeSeries now sb ts).map (fun p => p.date) =
      (ts.filter (fun t => isValidTxn t)).map (fun t => t.createdAt.getD 0)) ∧
    (∀ (s : EqState) (t : Txn), ¬ isValidTxn t → stepTxn s t = (s, none)) ∧
    ((∀ t ∈ ts, isValidTxn t) →
      (ts.map (fun t => t.createdAt.getD 0)).Pairwise (· ≤ ·) →
      (getEquityTimeSeries now sb ts).length = ts.length ∧
      ((getEquityTimeSeries now sb ts).map (fun p => p.date)).Pairwise (· ≤ ·)) := by
  have hser : getEquityTimeSeries now sb ts = buildPoints ⟨sb, [], []⟩ ts := by
    cases ts with
    | nil => exact absurd rfl hne
    | cons t rest => rfl
  have hdates : (getEquityTimeSeries now sb ts).map (fun p => p.date) =
      (ts.filter (fun t => isValidTxn t)).map (fun t => t.createdAt.getD 0) := by
    rw [hser]; exact buildPoints_dates _ ts
  refine ⟨hdates, fun s t h => stepTxn_invalid s t h, fun hall hsorted => ?_⟩
  have hfilter : ts.filter (fun t => isValidTxn t) = ts :=
    List.filter_eq_self.mpr (fun t ht => by simpa using hall t ht)
  constructor
  · have := congrArg List.length hdates
    simpa [hfilter] using this
  · rw [hdates, hfilter]
    exact hsorted

/-- A valid sample BUY transaction. -/
def txA : Txn :=
  { symbol := ("AAPL"), type := ("BUY"), quantity := 2, price := 100,
    totalAmount := 200, createdAt := some 1 }

/-- A valid sample SELL transaction. -/
def txB : Txn :=
  { symbol := ("AAPL"), type := ("SELL"), quantity := 1, price := 110,
    totalAmount := 110, createdAt := some 2 }

/-- A malformed sample transaction (missing `createdAt`). -/
def txBad : Txn :=
  { symbol := ("AAPL"), type := ("BUY"), quantity := 1, price := 100,
    totalAmount := 100, createdAt := none }

/-- C4 witness: two valid transactions yield exactly two points stamped with
the transactions' timestamps. -/
theorem getEquityTimeSeries_point_emission_witness :
    (getEquityTimeSeries 99 1000 [txA, txB]).map (fun p => p.date) = [1, 2] ∧
    (getEquityTimeSeries 99 1000 [txA, txB]).length = 2 := by
  have hvalid : ∀ t ∈ [txA, txB], isValidTxn t := by
    intro t ht
    simp only [List.mem_cons, List.not_mem_nil, or_false] at ht
    rcases ht with h | h <;> subst h <;> simp [txA, txB, isValidTxn]
  have h := getEquityTimeSeries_point_emission 99 1000 [txA, txB] (by simp)
  constructor
  · rw [h.1, List.filter_eq_self.mpr (fun t ht => by simpa using hvalid t ht)]
    simp [txA, txB]
  · refine (h.2.2 hvalid ?_).1.trans (by simp)
    simp [txA, txB]

/-- C9: The single synthetic equity point `{date := now, equity :=
startingBalance}` is emitted only for an empty transaction log; a non-empty
log in which every transaction is malformed yields an empty curve with no
synthetic point. -/
theorem getEquityTimeSeries_synthetic_only_when_empty :
    (∀ now sb : ℚ, getEquityTimeSeries now sb [] = [⟨now, sb⟩]) ∧
    (∀ (now sb : ℚ) (ts : List Txn), ts ≠ [] → (∀ t ∈ ts, ¬ isValidTxn t) →
      getEquityTimeSeries now sb ts = []) := by
  constructor
  · intro now sb; rfl
  · intro now sb ts hne hall
    have hser : getEquityTimeSeries now sb ts = buildPoints ⟨sb, [], []⟩ ts := by
      cases ts with
      | nil => exact absurd rfl hne
      | cons t rest => rfl
    rw [hser]
    exact buildPoints_all_invalid _ ts hall

/-- C9 witness: an empty log yields the synthetic point; a log holding one
malformed transaction yields the empty curve. -/
theorem getEquityTimeSeries_synthetic_only_when_empty_witness :
    getEquityTimeSeries 5 7 [] = [⟨5, 7⟩] ∧
    getEquityTimeSeries 99 1000 [txBad] = [] := by
  refine ⟨getEquityTimeSeries_synthetic_only_when_empty.1 5 7, ?_⟩
  refine getEquityTimeSeries_synthetic_only_when_empty.2 99 1000 [txBad] (by simp) ?_
  intro t ht
  simp only [List.mem_cons, List.not_mem_nil, or_false] at ht
  subst ht
  simp [txBad, isValidTxn]

/-! ## Position Replayer (getUserPortfolio, portfolio.service.ts lines 52-101) -/

/-- One iteration of the cost-basis replay loop.  The per-symbol state is
`(quantity, totalCost)`.  A BUY initialises missing state to `(0, 0)` and
adds quantity/totalAmount; a SELL on a tracked symbol reduces `totalCost`
proportionally at the pre-sale average cost and deletes the symbol entirely
when the resulting quantity is ≤ 0; every other type is a no-op. -/
def replayStep (m : List (String × ℚ × ℚ)) (t : Txn) : List (String × ℚ × ℚ) :=
  if t.type = ("BUY") then
    match getA m t.symbol with
    | none => setA m t.symbol (t.quantity, t.totalAmount)
    | some qc => setA m t.symbol (qc.1 + t.quantity, qc.2 + t.totalAmount)
  else if t.type = ("SELL") then
    match getA m t.symbol with
    | none => m
    | some qc =>
      let avgCostBeforeSell := if 0 < qc.1 then qc.2 / qc.1 else 0
      let q' := qc.1 - t.quantity
      if q' ≤ 0 then delA m t.symbol
      else setA m t.symbol (q', qc.2 - avgCostBeforeSell * t.quantity)
  else m

/-- The final per-symbol `(quantity, totalCost)` map after replaying a log. -/
def replayPositions (txns : List Txn) : List (String × ℚ × ℚ) :=
  txns.foldl replayStep []

/-- Active positions after replay: symbols with a positive quantity, as
`(symbol, netQuantity, avgCost)` with `avgCost = totalCost / quantity`. -/
def activePositionsOf (txns : List Txn) : List (String × ℚ × ℚ) :=
  (replayPositions txns).filterMap
    (fun e => if 0 < e.2.1 then some (e.1, e.2.1, e.2.2 / e.2.1) else none)

/-- C5: Full close resets cost basis.  (a) Whenever a SELL drives a tracked
symbol's running quantity to ≤ 0, the symbol's `(quantity, totalCost)` state
is deleted entirely, so a later BUY restarts the average-cost computation
from zero.  (b) Concretely, replaying BUY 10 @ 10, SELL 10 @ 15, BUY 5 @ 20
yields the single position (netQuantity 5, avgCost 20), not blended with the
earlier cost of 10. -/
theorem replay_full_close_resets_cost_basis :
    (∀ (m : List (String × ℚ × ℚ)) (t : Txn) (qc : ℚ × ℚ),
      t.type = ("SELL") → getA m t.symbol = some qc → qc.1 - t.quantity ≤ 0 →
      getA (replayStep m t) t.symbol = none) ∧
    activePositionsOf
      [{ symbol := ("AAPL"), type := ("BUY"), quantity := 10, price := 10,
         totalAmount := 100, createdAt := some 1 },
       { symbol := ("AAPL"), type := ("SELL"), quantity := 10, price := 15,
         totalAmount := 150, createdAt := some 2 },
       { symbol := ("AAPL"), type := ("BUY"), quantity := 5, price := 20,
         totalAmount := 100, createdAt := some 3 }] = [(("AAPL"), 5, 20)] := by
  constructor
  · intro m t qc hty hget hq
    have hnotbuy : ¬ t.type = ("BUY") := by simp [hty]
    simp only [replayStep, hnotbuy, if_false, hty, if_true, hget, hq]
    exact getA_delA m t.symbol
  · norm_num [activePositionsOf, replayPositions, replayStep, getA, setA, delA, List.filter,
      List.filterMap_cons]

/-- C5 witness: instantiating the deletion law at a concrete one-entry map
and a concrete SELL that empties the position. -/
theorem replay_full_close_resets_cost_basis_witness :
    getA (replayStep [(("AAPL"), (10 : ℚ), (100 : ℚ))]
      { symbol := ("AAPL"), type := ("SELL"), quantity := 10, price := 15,
        totalAmount := 150, createdAt := some 2 }) ("AAPL") = none := by
  refine replay_full_close_resets_cost_basis.1 _ _ (10, 100) rfl ?_ (by norm_num)
  simp [getA]

/-! ## Portfolio (getUserPortfolio output, portfolio.service.ts lines 103-186) -/

/-- One live position row as returned by `getUserPortfolio`. -/
structure Position where
  symbol : String
  netQty : ℚ
  avgCost : ℚ
  currentPrice : ℚ
  marketValue : ℚ
  unrealizedPnL : ℚ
  gainPercent : ℚ
  allocationPercent : ℚ
  deriving DecidableEq

/-- The portfolio aggregate returned by `getUserPortfolio` (the interface is
named `Portfolio` in the source). -/
structure PortfolioData where
  balance : ℚ
  positions : List Position
  totalMarketValue : ℚ
  totalUnrealizedPnL : ℚ
  totalEquity : ℚ
  totalReturn : ℚ
  totalReturnPercent : ℚ
  deriving DecidableEq

/-- Shallow embedding of the pure core of `getUserPortfolio` (the source name
ends in letters the build tooling rejects, hence the `Core` suffix): replay
the log into active positions, price them with the oracle (`priceOf`,
skipping a position whose price is missing or non-positive), and aggregate.
-/
def getUserPortfolioCore (balance startingBalance : ℚ) (txns : List Txn)
    (priceOf : String → Option ℚ) : PortfolioData :=
  let temp : List Position := (activePositionsOf txns).filterMap (fun e =>
    match priceOf e.1 with
    | none => none
    | some cp =>
      if cp ≤ 0 then none
      else
        some { symbol := e.1, netQty := e.2.1, avgCost := e.2.2, currentPrice := cp,
               marketValue := e.2.1 * cp, unrealizedPnL := (cp - e.2.2) * e.2.1,
               gainPercent := if (0 : ℚ) < e.2.2 then (cp - e.2.2) / e.2.2 * 100 else 0,
               allocationPercent := 0 })
  let totalMV := (temp.map (fun p => p.marketValue)).sum
  let positions := temp.map (fun p =>
    { p with allocationPercent := if 0 < totalMV then p.marketValue / totalMV * 100 else 0 })
  let totalEquity := balance + totalMV
  let totalReturn := totalEquity - startingBalance
  { balance := balance, positions := positions, totalMarketValue := totalMV,
    totalUnrealizedPnL := (positions.map (fun p => p.unrealizedPnL)).sum,
    totalEquity := totalEquity, totalReturn := totalReturn,
    totalReturnPercent := if 0 < startingBalance then totalReturn / startingBalance * 100 else 0 }

/-! ## Analytics Engine (buildPortfolioSnapshot) -/

/-- Model of `Number(x.toFixed(2))` on exact rationals. -/
def round2 (x : ℚ) : ℚ := ((round (x * 100) : ℤ) : ℚ) / 100

/-- Model of `Number(x.toFixed(4))` on reals (volatility and Sharpe). -/
noncomputable def round4R (x : ℝ) : ℝ := ((round (x * 10000) : ℤ) : ℝ) / 10000

/-- The date component of a timestamp (the source truncates the ISO string to
"YYYY-MM-DD"; with timestamps in days this is the floor). -/
def dayOf (d : ℚ) : ℤ := ⌊d⌋

/-- Day-over-day simple returns of a day-collapsed equity sequence, skipping
a step whose previous value is exactly zero. -/
def dayReturns : List ℚ → List ℚ
  | a :: b :: rest => (if a = 0 then [] else [(b - a) / a]) ++ dayReturns (b :: rest)
  | _ => []

/-- Shallow embedding of `calculateDailyReturns`: collapse the curve to one
equity value per calendar day (last value of the day wins), sort by day
ascending, then take day-over-day returns. -/
def calculateDailyReturns (points : List EquityPoint) : List ℚ :=
  if points.length < 2 then []
  else
    let byDay := points.foldl (fun m p => setA m (dayOf p.date) p.equity) []
    let dailyEquities := (byDay.insertionSort (fun a b => a.1 ≤ b.1)).map (fun e => e.2)
    dayReturns dailyEquities

/-- Shallow embedding of `calculateVolatility`: Bessel-corrected sample
standard deviation of the daily returns, annualised by √252; 0 with fewer
than two returns. -/
noncomputable def calculateVolatility (dailyReturns : List ℚ) : ℝ :=
  if dailyReturns.length < 2 then 0
  else
    let n : ℝ := dailyReturns.length
    let mean : ℝ := ((dailyReturns.map (fun r => (r : ℝ))).sum) / n
    let variance : ℝ := ((dailyReturns.map (fun r => ((r : ℝ) - mean) ^ 2)).sum) / (n - 1)
    Real.sqrt variance * Real.sqrt 252

/-- The risk-free rate hard-coded as the default argument of
`calculateSharpe`. -/
def riskFreeRate : ℚ := 3 / 100

/-- Shallow embedding of `calculateSharpe`: 0 when volatility is 0. -/
noncomputable def calculateSharpe (annualisedReturn annualisedVolatility : ℝ) : ℝ :=
  if annualisedVolatility = 0 then 0
  else (annualisedReturn - (riskFreeRate : ℝ)) / annualisedVolatility

/-- The total return derived from the equity curve itself (snapshot lines
338-341): (last − first) / first over the curve's own first point, 0 when the
first equity is not positive. -/
def curveTotalReturn (points : List EquityPoint) : ℚ :=
  let first := ((points.head?).map (fun p => p.equity)).getD 0
  let last := ((points.getLast?).map (fun p => p.equity)).getD 0
  if 0 < first then (last - first) / first else 0

/-- The annualised return fed to the Sharpe ratio:
(1 + totalReturn)^(252/numDays) − 1, and 0 when numDays = 0. -/
noncomputable def annualisedReturn (totalReturn : ℚ) (numDays : ℕ) : ℝ :=
  if numDays = 0 then 0
  else (1 + (totalReturn : ℝ)) ^ ((252 : ℝ) / (numDays : ℝ)) - 1

/-- Concentration risk levels. -/
inductive RiskLevel where
  | LOW
  | MEDIUM
  | HIGH
  deriving DecidableEq

/-- The largest position by market value (`positions.reduce`, keeping the
later element on ties exactly like the source's `a > b ? a : b`). -/
def largestOf (ps : List Position) : Option Position :=
  match ps with
  | [] => none
  | p :: rest => some (rest.foldl (fun a b => if b.marketValue < a.marketValue then a else b) p)

/-- The reported largest position: symbol plus its share of total equity,
rounded to 2 decimals at this point in the source (snapshot lines 285-297). -/
def largestPositionOf (P : PortfolioData) : Option (String × ℚ) :=
  (largestOf P.positions).map (fun l =>
    (l.symbol, if 0 < P.totalEquity then round2 (l.marketValue / P.totalEquity * 100) else 0))

/-- `largestPosition?.allocationPct ?? 0` — note this is the already-rounded
allocation percentage. -/
def topAllocationOf (P : PortfolioData) : ℚ :=
  ((largestPositionOf P).map (fun e => e.2)).getD 0

/-- The threshold classification from snapshot lines 300-302. -/
def riskOf (topAllocation : ℚ) : RiskLevel :=
  if 40 < topAllocation then .HIGH
  else if 25 < topAllocation then .MEDIUM
  else .LOW

/-- Sum market value per sector in first-encounter order (JS `Map`). -/
def addA (m : List (String × ℚ)) (k : String) (v : ℚ) : List (String × ℚ) :=
  match m with
  | [] => [(k, v)]
  | e :: rest => if e.1 = k then (e.1, e.2 + v) :: rest else e :: addA rest k v

/-- Sector breakdown: market value grouped by sector, each expressed as a
2-decimal-rounded percentage of total equity, sorted descending. -/
def sectorBreakdownOf (P : PortfolioData) (sectorOf : String → String) : List (String × ℚ) :=
  match P.positions with
  | [] => []
  | _ =>
    let m := P.positions.foldl (fun m pos => addA m (sectorOf pos.symbol) pos.marketValue) []
    (m.map (fun e =>
      (e.1, if 0 < P.totalEquity then round2 (e.2 / P.totalEquity * 100) else 0))).insertionSort
      (fun a b => b.2 ≤ a.2)

/-- Top gainer / top loser by `gainPercent`; the loser is reported absent
when it coincides with the gainer (single position). -/
def topMoversOf (ps : List Position) : Option String × Option String :=
  match ps with
  | [] => (none, none)
  | _ =>
    let sorted := ps.insertionSort (fun a b => a.gainPercent ≤ b.gainPercent)
    let loser := sorted.head?.map (fun p => p.symbol)
    let gainer := sorted.getLast?.map (fun p => p.symbol)
    (gainer, if gainer = loser then none else loser)

/-- The analytics snapshot (the source's `PortfolioSnapshot`; the
`displayTotalReturnPct` string and the `sharpeRatio` field name are adjusted
for the build tooling: `sharpe` is the source's `sharpeRatio`). -/
structure Snapshot where
  totalEquity : ℚ
  totalReturnPct : ℚ
  cashAllocationPct : ℚ
  largestPosition : Option (String × ℚ)
  concentrationRiskLevel : RiskLevel
  sectorBreakdown : List (String × ℚ)
  volatility : ℝ
  sharpe : ℝ
  topGainer : Option String
  topLoser : Option String

/-- Shallow embedding of `buildPortfolioSnapshot` given the portfolio, the
equity curve and the sector lookup (the source obtains all three for the
same user). -/
noncomputable def buildPortfolioSnapshot (P : PortfolioData) (points : List EquityPoint)
    (sectorOf : String → String) : Snapshot :=
  let dailyReturns := calculateDailyReturns points
  let annualisedVolatility := calculateVolatility dailyReturns
  let ar := annualisedReturn (curveTotalReturn points) dailyReturns.length
  let movers := topMoversOf P.positions
  { totalEquity := P.totalEquity
    totalReturnPct := round2 P.totalReturnPercent
    cashAllocationPct := if 0 < P.totalEquity then P.balance / P.totalEquity * 100 else 0
    largestPosition := largestPositionOf P
    concentrationRiskLevel := riskOf (topAllocationOf P)
    sectorBreakdown := sectorBreakdownOf P sectorOf
    volatility := round4R annualisedVolatility
    sharpe := round4R (calculateSharpe ar annualisedVolatility)
    topGainer := movers.1
    topLoser := movers.2 }

theorem round2_zero : round2 0 = 0 := by
  simp [round2]

theorem round2_idem (x : ℚ) : round2 (round2 x) = round2 x := by
  simp [round2, div_mul_cancel₀]

theorem round4R_idem (x : ℝ) : round4R (round4R x) = round4R x := by
  simp [round4R, div_mul_cancel₀]

theorem riskOf_iff (t : ℚ) :
    (riskOf t = .HIGH ↔ 40 < t) ∧ (riskOf t = .MEDIUM ↔ 25 < t ∧ t ≤ 40) ∧
      (riskOf t = .LOW ↔ t ≤ 25) := by
  unfold riskOf
  split_ifs with h40 h25
  · exact ⟨iff_of_true rfl h40,
      iff_of_false (by simp) (by rintro ⟨-, hle⟩; linarith),
      iff_of_false (by simp) (by intro hle; linarith)⟩
  · exact ⟨iff_of_false (by simp) h40,
      iff_of_true rfl ⟨h25, le_of_not_lt h40⟩,
      iff_of_false (by simp) (by intro hle; linarith)⟩
  · exact ⟨iff_of_false (by simp) h40,
      iff_of_false (by simp) (by rintro ⟨h, -⟩; exact h25 h),
      iff_of_true rfl (le_of_not_lt h25)⟩

/-- A one-position portfolio with the given cash balance and position market
value (total equity is their sum), as `getUserPortfolio` would return it. -/
def onePositionData (balance mv : ℚ) : PortfolioData :=
  { balance := balance,
    positions := [{ symbol := ("AAPL"), netQty := 1, avgCost := mv, currentPrice := mv,
                    marketValue := mv, unrealizedPnL := 0, gainPercent := 0,
                    allocationPercent := 100 }],
    totalMarketValue := mv, totalUnrealizedPnL := 0, totalEquity := balance + mv,
    totalReturn := balance + mv - 100000,
    totalReturnPercent := (balance + mv - 100000) / 1000 }

/-- A portfolio with no positions. -/
def emptyPositionData (balance : ℚ) : PortfolioData :=
  { balance := balance, positions := [], totalMarketValue := 0, totalUnrealizedPnL := 0,
    totalEquity := balance, totalReturn := balance - 100000,
    totalReturnPercent := (balance - 100000) / 1000 }

/-- The sector lookup degraded to "Unknown" everywhere. -/
def secU : String → String := fun _ => ("Unknown")

/-- C6 counterexample: the claim that the risk level is HIGH iff the largest
position's share of total equity is strictly greater than 40% is false of the
code: with a cash balance of 14999 and a single position worth 10001 (total
equity 25000), the largest position's full-precision share is 40.004% — which
is strictly greater than 40% — yet the snapshot classifies the portfolio
MEDIUM, not HIGH, because the code compares the `toFixed(2)`-rounded
allocation (40.00) against the thresholds. -/
theorem concentration_risk_thresholds_counterexample :
    40 < ((largestOf (onePositionData 14999 10001).positions).map
        (fun l => l.marketValue / (onePositionData 14999 10001).totalEquity * 100)).getD 0 ∧
    (buildPortfolioSnapshot (onePositionData 14999 10001) [] secU).concentrationRiskLevel =
      RiskLevel.MEDIUM ∧
    (buildPortfolioSnapshot (onePositionData 14999 10001) [] secU).concentrationRiskLevel ≠
      RiskLevel.HIGH := by
  have hmed : (buildPortfolioSnapshot (onePositionData 14999 10001) []
      secU).concentrationRiskLevel = RiskLevel.MEDIUM := by
    show riskOf (topAllocationOf (onePositionData 14999 10001)) = RiskLevel.MEDIUM
    norm_num [topAllocationOf, largestPositionOf, largestOf, onePositionData, round2, round_eq,
      riskOf]
  refine ⟨?_, hmed, ?_⟩
  · norm_num [largestOf, onePositionData]
  · rw [hmed]
    simp

/-- C6 (amended): Concentration thresholds.  The snapshot's risk level is
computed from the largest position's share of total equity rounded to 2
decimal places (`topAllocationOf`, the `toFixed(2)`-rounded allocation
percentage, 0 when there is no position or equity is not positive): HIGH iff
that rounded share exceeds 40, MEDIUM iff it exceeds 25 but not 40, LOW
otherwise — so a full-precision share in (40%, 40.005%) is MEDIUM, not HIGH.
The claim's concrete instances are exact 2-decimal values and hold as stated:
a single position at exactly 40% of equity is MEDIUM, at 41% HIGH, at exactly
25% LOW, at 26% MEDIUM, and a portfolio with no positions reports no largest
position and LOW. -/
theorem concentration_risk_thresholds :
    (∀ P : PortfolioData, topAllocationOf P =
      ((largestOf P.positions).map (fun l =>
        if 0 < P.totalEquity then round2 (l.marketValue / P.totalEquity * 100)
        else 0)).getD 0) ∧
    (∀ (P : PortfolioData) (points : List EquityPoint) (sectorOf : String → String),
      ((buildPortfolioSnapshot P points sectorOf).concentrationRiskLevel = .HIGH ↔
        40 < topAllocationOf P) ∧
      ((buildPortfolioSnapshot P points sectorOf).concentrationRiskLevel = .MEDIUM ↔
        25 < topAllocationOf P ∧ topAllocationOf P ≤ 40) ∧
      ((buildPortfolioSnapshot P points sectorOf).concentrationRiskLevel = .LOW ↔
        topAllocationOf P ≤ 25)) ∧
    (buildPortfolioSnapshot (onePositionData 60 40) [] secU).concentrationRiskLevel = .MEDIUM ∧
    (buildPortfolioSnapshot (onePositionData 59 41) [] secU).concentrationRiskLevel = .HIGH ∧
    (buildPortfolioSnapshot (onePositionData 75 25) [] secU).concentrationRiskLevel = .LOW ∧
    (buildPortfolioSnapshot (onePositionData 74 26) [] secU).concentrationRiskLevel = .MEDIUM ∧
    ((buildPortfolioSnapshot (emptyPositionData 100) [] secU).concentrationRiskLevel = .LOW ∧
      (buildPortfolioSnapshot (emptyPositionData 100) [] secU).largestPosition = none) := by
  have hproj : ∀ (P : PortfolioData) (points : List EquityPoint) (sectorOf : String → String),
      (buildPortfolioSnapshot P points sectorOf).concentrationRiskLevel =
        riskOf (topAllocationOf P) := fun _ _ _ => rfl
  refine ⟨?_, fun P points sectorOf => ?_, ?_, ?_, ?_, ?_, ?_, ?_⟩
  · intro P
    unfold topAllocationOf largestPositionOf
    rcases largestOf P.positions with _ | l <;> simp
  · rw [hproj]; exact riskOf_iff (topAllocationOf P)
  · rw [hproj]
    norm_num [topAllocationOf, largestPositionOf, largestOf, onePositionData, round2, round_eq,
      riskOf]
  · rw [hproj]
    norm_num [topAllocationOf, largestPositionOf, largestOf, onePositionData, round2, round_eq,
      riskOf]
  · rw [hproj]
    norm_num [topAllocationOf, largestPositionOf, largestOf, onePositionData, round2, round_eq,
      riskOf]
  · rw [hproj]
    norm_num [topAllocationOf, largestPositionOf, largestOf, onePositionData, round2, round_eq,
      riskOf]
  · rw [hproj]
    norm_num [topAllocationOf, largestPositionOf, largestOf, emptyPositionData, round2, round_eq,
      riskOf]
  · show largestPositionOf (emptyPositionData 100) = none
    rfl

/-- C7 counterexample: the claim that every percentage field of the snapshot
is rounded to 2 decimal places is false — with a cash balance of 1 and a
single position worth 2 (total equity 3), `cashAllocationPct` is 100/3, which
is not equal to its own 2-decimal rounding, because the source never applies
`toFixed` to `cashAllocationPct`. -/
theorem snapshot_rounding_counterexample :
    ¬ ((buildPortfolioSnapshot (onePositionData 1 2) [] secU).cashAllocationPct =
        round2 ((buildPortfolioSnapshot (onePositionData 1 2) [] secU).cashAllocationPct)) := by
  have h : (buildPortfolioSnapshot (onePositionData 1 2) [] secU).cashAllocationPct = 100 / 3 := by
    show (if (0 : ℚ) < 1 + 2 then (1 : ℚ) / (1 + 2) * 100 else 0) = 100 / 3
    norm_num
  rw [h]
  norm_num [round2, round_eq]

/-- C7 (amended): in the snapshot, `totalReturnPct`, the largest position's
allocation percentage and the sector-breakdown percentages are rounded to 2
decimal places, and volatility and Sharpe to 4 decimal places, at the output
boundary; but `cashAllocationPct` is returned at full precision (not
rounded), and the concentration-risk threshold comparison is performed on the
already-rounded largest-position allocation rather than on the full-precision
share — witnessed by a position whose raw share 40.004% exceeds 40 yet is
classified MEDIUM. -/
theorem sectorBreakdownOf_rounded (P : PortfolioData) (sectorOf : String → String) :
    (sectorBreakdownOf P sectorOf).Forall (fun e => round2 e.2 = e.2) := by
  rw [List.forall_iff_forall_mem]
  intro e he
  rcases hP : P.positions with _ | ⟨p, ps⟩
  · simp only [sectorBreakdownOf, hP] at he
    simp at he
  · simp only [sectorBreakdownOf, hP] at he
    have he' := (List.perm_insertionSort (fun a b : String × ℚ => b.2 ≤ a.2) _).mem_iff.mp he
    rcases List.mem_map.mp he' with ⟨e', -, rfl⟩
    by_cases hte : 0 < P.totalEquity
    · simp only [hte, if_true]
      exact round2_idem _
    · simp only [hte, if_false]
      exact round2_zero

theorem topAllocationOf_rounded (P : PortfolioData) :
    round2 (topAllocationOf P) = topAllocationOf P := by
  unfold topAllocationOf largestPositionOf
  rcases largestOf P.positions with _ | l
  · simpa using round2_zero
  · by_cases hte : 0 < P.totalEquity
    · simp only [Option.map_some, Option.getD_some, hte, if_true]
      exact round2_idem _
    · simp only [Option.map_some, Option.getD_some, hte, if_false]
      exact round2_zero

theorem snapshot_output_rounding :
    (∀ (P : PortfolioData) (points : List EquityPoint) (sectorOf : String → String),
      (buildPortfolioSnapshot P points sectorOf).totalReturnPct =
        round2 P.totalReturnPercent ∧
      (buildPortfolioSnapshot P points sectorOf).cashAllocationPct =
        (if 0 < P.totalEquity then P.balance / P.totalEquity * 100 else 0) ∧
      (buildPortfolioSnapshot P points sectorOf).sectorBreakdown.Forall
        (fun e => round2 e.2 = e.2) ∧
      round2 (topAllocationOf P) = topAllocationOf P ∧
      round4R (buildPortfolioSnapshot P points sectorOf).volatility =
        (buildPortfolioSnapshot P points sectorOf).volatility ∧
      round4R (buildPortfolioSnapshot P points sectorOf).sharpe =
        (buildPortfolioSnapshot P points sectorOf).sharpe ∧
      (buildPortfolioSnapshot P points sectorOf).concentrationRiskLevel =
        riskOf (topAllocationOf P)) ∧
    ((buildPortfolioSnapshot (onePositionData 14999 10001) [] secU).concentrationRiskLevel =
        .MEDIUM ∧
      (40 : ℚ) < 10001 / (14999 + 10001) * 100) := by
  constructor
  · intro P points sectorOf
    exact ⟨rfl, rfl, sectorBreakdownOf_rounded P sectorOf, topAllocationOf_rounded P,
      round4R_idem _, round4R_idem _, rfl⟩
  · constructor
    · show riskOf (topAllocationOf (onePositionData 14999 10001)) = RiskLevel.MEDIUM
      norm_num [topAllocationOf, largestPositionOf, largestOf, onePositionData, round2, round_eq,
        riskOf]
    · norm_num

/-- C10: The annualised return fed into the Sharpe ratio is derived from the
equity curve itself: the snapshot's Sharpe input is
`annualisedReturn (curveTotalReturn points) numDays` with `numDays` the
number of computed daily returns; `curveTotalReturn` is
(last − first) / first over the curve's own first point, taken as 0 when the
first equity is ≤ 0 (in which case the annualised return is 0 for every
number of days), and the annualised return is 0 when there are no daily
returns; this can differ from the snapshot's `totalReturnPct`, which is
computed against the starting balance by `getUserPortfolio`. -/
theorem sharpe_return_derived_from_curve :
    (∀ (P : PortfolioData) (points : List EquityPoint) (sectorOf : String → String),
      (buildPortfolioSnapshot P points sectorOf).sharpe =
        round4R (calculateSharpe
          (annualisedReturn (curveTotalReturn points) (calculateDailyReturns points).length)
          (calculateVolatility (calculateDailyReturns points)))) ∧
    (∀ tr : ℚ, annualisedReturn tr 0 = 0) ∧
    (∀ (points : List EquityPoint) (n : ℕ),
      ((points.head?).map (fun p => p.equity)).getD 0 ≤ 0 →
      curveTotalReturn points = 0 ∧ annualisedReturn (curveTotalReturn points) n = 0) ∧
    ((getUserPortfolioCore 150 200 [] (fun _ => none)).totalReturnPercent = -25 ∧
      curveTotalReturn [⟨0, 100⟩, ⟨1, 150⟩] = 1 / 2 ∧
      (getUserPortfolioCore 150 200 [] (fun _ => none)).totalReturnPercent / 100 ≠
        curveTotalReturn [⟨0, 100⟩, ⟨1, 150⟩]) := by
  have hzero : ∀ tr : ℚ, annualisedReturn tr 0 = 0 := by
    intro tr
    simp [annualisedReturn]
  have hport : (getUserPortfolioCore 150 200 [] (fun _ => none)).totalReturnPercent = -25 := by
    norm_num [getUserPortfolioCore, activePositionsOf, replayPositions]
  have hcurve : curveTotalReturn [⟨0, 100⟩, ⟨1, 150⟩] = 1 / 2 := by
    norm_num [curveTotalReturn, List.getLast?]
  refine ⟨fun P points sectorOf => rfl, hzero, ?_, hport, hcurve, ?_⟩
  · intro points n hfirst
    have hret : curveTotalReturn points = 0 := by
      unfold curveTotalReturn
      rw [if_neg (not_lt.mpr hfirst)]
    refine ⟨hret, ?_⟩
    rw [hret]
    rcases Nat.eq_zero_or_pos n with hn | hn
    · rw [hn]; exact hzero 0
    · have hn0 : n ≠ 0 := Nat.pos_iff_ne_zero.mp hn
      simp [annualisedReturn, hn0, Real.one_rpow]
  · rw [hport, hcurve]
    norm_num

/-- C10 witness: a curve whose first equity is negative has curve total
return 0 and annualised return 0 even over 7 return-days. -/
theorem sharpe_return_derived_from_curve_witness :
    curveTotalReturn [⟨0, -5⟩] = 0 ∧ annualisedReturn (curveTotalReturn [⟨0, -5⟩]) 7 = 0 := by
  refine sharpe_return_derived_from_curve.2.2.1 [⟨0, -5⟩] 7 ?_
  norm_num

end StockLens
